import Mathlib

/-!
Verification development for the financeX core (src/store.ts and
src/analytics.ts): the amount parser, entry ledger, credit facility
resolver, totals calculator, history recorder, planning-horizon
resolution, payday date arithmetic and the snapshot store.

Modelling conventions:
* JS numbers are modelled exactly as rationals (ℚ); every arithmetic
  step of the source maps to the same step on ℚ.
* JS strings are Lean strings; all character processing (whitespace
  stripping, trimming, lower-casing, parseFloat) is defined on the
  underlying character lists, mirroring the JS string primitives.
* Timestamps (Date values, ISO capture times) are modelled as rational
  millisecond values; the lexicographic order of the ISO strings the
  store writes coincides with the numeric order of these timestamps.
* The random id fields produced by generateId are opaque tokens that no
  store computation inspects except for identity filtering; history
  points are modelled without them and snapshots keep an opaque string id.
-/

/-! ### Amount parser (store.ts parseAmount / parsePositiveFloat) -/

/-- Characters matched by the JS regular expression class \s (the ASCII
whitespace characters plus NBSP, the ones that can occur in amount input). -/
def isWsChar (c : Char) : Bool :=
  c = ' ' || c = '\t' || c = '\n' || c = '\r' || c = '\x0b' || c = '\x0c' || c = '\xa0'

/-- value.replace(/\s/g, ''): remove every whitespace character. -/
def stripWs (cs : List Char) : List Char :=
  cs.filter (fun c => !isWsChar c)

/-- value.replace(',', '.') with a string pattern replaces only the first
occurrence of the comma. -/
def replaceFirstComma : List Char → List Char
  | [] => []
  | c :: rest => if c = ',' then '.' :: rest else c :: replaceFirstComma rest

def digitVal (c : Char) : ℕ := c.toNat - 48

def digitsToNat (ds : List Char) : ℕ :=
  ds.foldl (fun acc c => 10 * acc + digitVal c) 0

/-- The decimal literal prefix recognised by Number.parseFloat, split into
sign, integer digits, fraction digits (with their count) and exponent. -/
structure FloatParts where
  sign : ℤ
  intPart : ℕ
  fracPart : ℕ
  fracLen : ℕ
  exp : ℤ
  deriving DecidableEq

def expDigitsVal (cs : List Char) : ℤ :=
  (digitsToNat (cs.takeWhile Char.isDigit) : ℤ)

/-- Signed exponent digits after the e/E marker; a marker not followed by
digits contributes exponent 0 (parseFloat backtracks past an empty
exponent, leaving the mantissa value unchanged). -/
def parseSignedExp : List Char → ℤ
  | '+' :: rest => expDigitsVal rest
  | '-' :: rest => - expDigitsVal rest
  | rest => expDigitsVal rest

def parseExpPart : List Char → ℤ
  | 'e' :: rest => parseSignedExp rest
  | 'E' :: rest => parseSignedExp rest
  | _ => 0

/-- Number.parseFloat: longest numeric prefix [+|-] digits [. digits]
[e|E [+|-] digits]; none models NaN (no digit at all). The Infinity
literal is mapped to none as well: the callers discard non-finite results. -/
def jsParseFloat (cs : List Char) : Option FloatParts :=
  let signAndRest : ℤ × List Char :=
    match cs with
    | '-' :: rest => (-1, rest)
    | '+' :: rest => (1, rest)
    | _ => (1, cs)
  let sign := signAndRest.1
  let cs1 := signAndRest.2
  let intDs := cs1.takeWhile Char.isDigit
  let cs2 := cs1.drop intDs.length
  let fracAndRest : List Char × List Char :=
    match cs2 with
    | '.' :: rest => (rest.takeWhile Char.isDigit, rest.drop (rest.takeWhile Char.isDigit).length)
    | _ => ([], cs2)
  let fracDs := fracAndRest.1
  let cs3 := fracAndRest.2
  if intDs.isEmpty && fracDs.isEmpty then none
  else some ⟨sign, digitsToNat intDs, digitsToNat fracDs, fracDs.length, parseExpPart cs3⟩

/-- Powers of ten on ℚ by structural recursion. -/
def pow10 : ℕ → ℚ
  | 0 => 1
  | n + 1 => 10 * pow10 n

/-- Exact rational value of a parsed decimal literal. -/
def partsToRat (p : FloatParts) : ℚ :=
  let mant : ℚ := (p.sign : ℚ) * ((p.intPart : ℚ) + (p.fracPart : ℚ) / pow10 p.fracLen)
  if 0 ≤ p.exp then mant * pow10 p.exp.toNat else mant / pow10 (-p.exp).toNat

def parseAmountChars (cs : List Char) : ℚ :=
  if cs.isEmpty then 0
  else
    match jsParseFloat (replaceFirstComma (stripWs cs)) with
    | some p => partsToRat p
    | none => 0

/-- store.ts parseAmount: empty/invalid input yields 0, never fails. -/
def parseAmount (value : String) : ℚ := parseAmountChars value.toList

def parsePositiveFloatChars (cs : List Char) : Option ℚ :=
  if cs.isEmpty then none
  else
    match jsParseFloat (replaceFirstComma (stripWs cs)) with
    | some p => if partsToRat p ≤ 0 then none else some (partsToRat p)
    | none => none

/-- store.ts parsePositiveFloat: null unless the input parses to a finite
positive number. -/
def parsePositiveFloat (value : String) : Option ℚ :=
  parsePositiveFloatChars value.toList

/-! ### Entry ledger (store.ts Entry, applyUnitForType, entry operations) -/

/-- RowType: Borç (debt), Kredi Kartı (credit card), Alacak (receivable),
Nakit (cash), Kripto (crypto). -/
inductive RowType where
  | borc
  | krediKarti
  | alacak
  | nakit
  | kripto
  deriving DecidableEq

/-- Unit: TL (local) or USD (foreign). -/
inductive CurrencyUnit where
  | tl
  | usd
  deriving DecidableEq

structure Entry where
  id : String
  name : String
  amount : String
  type : RowType
  unit : CurrencyUnit
  creditLimit : Option String
  deriving DecidableEq

def getUnitForType : RowType → CurrencyUnit
  | .kripto => .usd
  | _ => .tl

def applyUnitForType (entry : Entry) : Entry :=
  let expectedUnit := getUnitForType entry.type
  if entry.unit = expectedUnit then entry else { entry with unit := expectedUnit }

/-- The dynamic key of updateEntry(id, key, value) as a tagged variant. -/
inductive EntryField where
  | name (v : String)
  | amount (v : String)
  | type (v : RowType)
  | unit (v : CurrencyUnit)
  | creditLimit (v : Option String)

def setField (entry : Entry) : EntryField → Entry
  | .name v => { entry with name := v }
  | .amount v => { entry with amount := v }
  | .type v => { entry with type := v }
  | .unit v => { entry with unit := v }
  | .creditLimit v => { entry with creditLimit := v }

/-- The per-entry body of updateEntry: the type key and every other key
both end in applyUnitForType. -/
def updateEntryOne (entry : Entry) (f : EntryField) : Entry :=
  match f with
  | .type v => applyUnitForType { entry with type := v }
  | _ => applyUnitForType (setField entry f)

def updateEntry (entries : List Entry) (id : String) (f : EntryField) : List Entry :=
  entries.map fun e => if e.id = id then updateEntryOne e f else e

/-- addEntry: createEntry(overrides) can produce an arbitrary entry (the
overrides are spread last), which is then passed through applyUnitForType. -/
def addEntry (entries : List Entry) (newEntry : Entry) : List Entry :=
  entries ++ [applyUnitForType newEntry]

def removeEntry (entries : List Entry) (id : String) : List Entry :=
  entries.filter fun e => e.id != id

/-- hydrateFromPersistedState maps every incoming finance entry through
applyUnitForType. -/
def hydrateEntries (input : List Entry) : List Entry :=
  input.map applyUnitForType

/-- The entry-list states reachable through the store operations named by
the spec (initial empty ledger, add, update of any field, remove,
hydration of an arbitrary persisted list). -/
inductive EntriesReachable : List Entry → Prop where
  | init : EntriesReachable []
  | add (l : List Entry) (newEntry : Entry) :
      EntriesReachable l → EntriesReachable (addEntry l newEntry)
  | update (l : List Entry) (id : String) (f : EntryField) :
      EntriesReachable l → EntriesReachable (updateEntry l id f)
  | remove (l : List Entry) (id : String) :
      EntriesReachable l → EntriesReachable (removeEntry l id)
  | hydrate (input : List Entry) : EntriesReachable (hydrateEntries input)

/-! ### Credit facility resolver (store.ts getCreditCardMeta) -/

structure CreditCardMeta where
  issuer : String
  limit : ℚ
  debt : ℚ
  deriving DecidableEq

/-- String.prototype.toLowerCase on the ASCII names involved. -/
def jsToLowerChars (cs : List Char) : List Char := cs.map Char.toLower

/-- String.prototype.trim: strip leading and trailing whitespace. -/
def trimChars (cs : List Char) : List Char :=
  ((cs.dropWhile isWsChar).reverse.dropWhile isWsChar).reverse

/-- entry.name.trim().toLowerCase() -/
def normalizedName (name : String) : List Char :=
  jsToLowerChars (trimChars name.toList)

def hasPrefixC : List Char → List Char → Bool
  | [], _ => true
  | _ :: _, [] => false
  | a :: as, b :: bs => a = b && hasPrefixC as bs

/-- String.prototype.includes(pat): pat occurs as a contiguous substring. -/
def containsSeq (pat : List Char) : List Char → Bool
  | [] => pat.isEmpty
  | c :: rest => hasPrefixC pat (c :: rest) || containsSeq pat rest

/-- CREDIT_CARD_LIMITS.qnb.limit -/
def qnbLimit : ℚ := 282000

/-- CREDIT_CARD_LIMITS.akbank.limit -/
def akbankLimit : ℚ := 31700

/-- store.ts getCreditCardMeta: explicit positive credit limit on a credit
card entry wins; otherwise the trimmed lower-cased name is matched against
the fixed issuer registry (qnb, then akbank); otherwise null. -/
def getCreditCardMeta (entry : Entry) (availableAmountTl : ℚ) : Option CreditCardMeta :=
  let limitFromEntry := parseAmount (entry.creditLimit.getD "")
  if entry.type = RowType.krediKarti ∧ 0 < limitFromEntry then
    some { issuer := if entry.name = "" then "Kredi Kartı" else entry.name
           limit := limitFromEntry
           debt := max (limitFromEntry - availableAmountTl) 0 }
  else
    let normalized := normalizedName entry.name
    if normalized.isEmpty then none
    else if containsSeq "qnb".toList normalized then
      some { issuer := "QNB", limit := qnbLimit, debt := max (qnbLimit - availableAmountTl) 0 }
    else if containsSeq "akbank".toList normalized then
      some { issuer := "Akbank", limit := akbankLimit, debt := max (akbankLimit - availableAmountTl) 0 }
    else none

/-! ### Totals calculator (store.ts autoCalculateTotals, pure fold part) -/

structure Totals where
  debt : ℚ
  assets : ℚ
  netWorth : ℚ
  deriving DecidableEq

structure CategoryTotals where
  cards : ℚ
  debts : ℚ
  crypto : ℚ
  assets : ℚ
  deriving DecidableEq

/-- The six accumulators of the entries.forEach fold. -/
structure TotalsAcc where
  debt : ℚ
  assets : ℚ
  cardDebt : ℚ
  otherDebt : ℚ
  cryptoAssets : ℚ
  assetAndReceivables : ℚ

/-- amountInTl: a USD amount is converted only when the parsed rate is
positive; otherwise the raw parsed amount is used unchanged. -/
def amountInTl (entry : Entry) (numericUsdRate : ℚ) : ℚ :=
  let amount := parseAmount entry.amount
  if entry.unit = CurrencyUnit.usd ∧ 0 < numericUsdRate then amount * numericUsdRate else amount

def foldEntry (numericUsdRate : ℚ) (acc : TotalsAcc) (entry : Entry) : TotalsAcc :=
  let amountTl := amountInTl entry numericUsdRate
  let creditCard := getCreditCardMeta entry amountTl
  match entry.type with
  | .krediKarti =>
      let value := match creditCard with | some m => m.debt | none => 0
      { acc with debt := acc.debt + value, cardDebt := acc.cardDebt + value }
  | .borc =>
      let value := match creditCard with | some m => m.debt | none => amountTl
      { acc with debt := acc.debt + value, otherDebt := acc.otherDebt + value }
  | .kripto =>
      { acc with assets := acc.assets + amountTl, cryptoAssets := acc.cryptoAssets + amountTl }
  | _ =>
      { acc with assets := acc.assets + amountTl,
                 assetAndReceivables := acc.assetAndReceivables + amountTl }

def initAcc : TotalsAcc := ⟨0, 0, 0, 0, 0, 0⟩

def foldEntries (entries : List Entry) (numericUsdRate : ℚ) : TotalsAcc :=
  entries.foldl (foldEntry numericUsdRate) initAcc

/-- The pure part of autoCalculateTotals: the fresh Totals and
CategoryTotals computed from the ledger; netWorth := assets - debt. -/
def computeTotals (entries : List Entry) (usdRate : String) : Totals × CategoryTotals :=
  let acc := foldEntries entries (parseAmount usdRate)
  (⟨acc.debt, acc.assets, acc.assets - acc.debt⟩,
   ⟨acc.cardDebt, acc.otherDebt, acc.cryptoAssets, acc.assetAndReceivables⟩)

/-! ### History recorder (store.ts autoCalculateTotals, history part) -/

/-- CategoryPoint / PlanHistoryPoint: capture time and value (the random
id token is opaque and never inspected). -/
structure HistoryPoint where
  capturedAt : ℚ
  value : ℚ
  deriving DecidableEq

def MAX_CATEGORY_HISTORY : ℕ := 200

def MAX_PLAN_HISTORY : ℕ := 400

/-- updated.slice(updated.length - MAX_CATEGORY_HISTORY): keep the newest
200 points, dropping the oldest. -/
def trimCategory (l : List HistoryPoint) : List HistoryPoint :=
  if MAX_CATEGORY_HISTORY < l.length then l.drop (l.length - MAX_CATEGORY_HISTORY) else l

/-- The appendPoint closure: skip when the newest stored value equals the
new value (exact equality), else append a timestamped point and trim. -/
def appendPoint (history : List HistoryPoint) (nowT value : ℚ) : List HistoryPoint :=
  match history.getLast? with
  | some lastPoint =>
      if lastPoint.value = value then history
      else trimCategory (history ++ [⟨nowT, value⟩])
  | none => trimCategory (history ++ [⟨nowT, value⟩])

/-- Custom floor on ℚ (equal to Int.floor, proved below); num/den division
is euclidean division by a positive denominator, hence the floor. -/
def ratFloor (x : ℚ) : ℤ := x.num / (x.den : ℤ)

/-- Math.round: round half toward positive infinity. -/
def jsRound (x : ℚ) : ℤ := ratFloor (x + 1 / 2)

/-- Number(value.toFixed(2)): the value rounded to two decimals. -/
def round2 (x : ℚ) : ℚ := (jsRound (100 * x) : ℚ) / 100

/-- push then shift: drop the oldest point when the plan series exceeds
its 400-point bound. -/
def planTrim (l : List HistoryPoint) : List HistoryPoint :=
  if MAX_PLAN_HISTORY < l.length then l.drop 1 else l

/-- The plan-history branch of autoCalculateTotals: append a rounded
net-worth point unless the newest stored value is within 0.01. -/
def planAppend (planHistory : List HistoryPoint) (nowT currentNetWorth : ℚ) : List HistoryPoint :=
  match planHistory.getLast? with
  | some lastPlanPoint =>
      if 1 / 100 ≤ |lastPlanPoint.value - currentNetWorth| then
        planTrim (planHistory ++ [⟨nowT, round2 currentNetWorth⟩])
      else planHistory
  | none => planTrim (planHistory ++ [⟨nowT, round2 currentNetWorth⟩])

structure CategoryHistory where
  cards : List HistoryPoint
  debts : List HistoryPoint
  crypto : List HistoryPoint
  assets : List HistoryPoint
  deriving DecidableEq

/-- The finance-store fields touched by autoCalculateTotals. -/
structure FinanceState where
  entries : List Entry
  usdRate : String
  totals : Totals
  categoryTotals : CategoryTotals
  categoryHistory : CategoryHistory
  planHistory : List HistoryPoint

/-- store.ts autoCalculateTotals at capture time nowT: recompute Totals and
CategoryTotals from the ledger, append deduplicated history points. -/
def autoCalculateTotals (s : FinanceState) (nowT : ℚ) : FinanceState :=
  let tc := computeTotals s.entries s.usdRate
  { s with
    totals := tc.1
    categoryTotals := tc.2
    categoryHistory :=
      { cards := appendPoint s.categoryHistory.cards nowT tc.2.cards
        debts := appendPoint s.categoryHistory.debts nowT tc.2.debts
        crypto := appendPoint s.categoryHistory.crypto nowT tc.2.crypto
        assets := appendPoint s.categoryHistory.assets nowT tc.2.assets }
    planHistory := planAppend s.planHistory nowT tc.1.netWorth }

/-- A sequence of recomputed values for one category (capture time paired
with value), folded through appendPoint exactly as successive
autoCalculateTotals calls do. -/
def mkPoint (p : ℚ × ℚ) : HistoryPoint := ⟨p.1, p.2⟩

def historyFold (ps : List (ℚ × ℚ)) : List HistoryPoint :=
  ps.foldl (fun h p => appendPoint h p.1 p.2) []

/-! ### Planning horizon (store.ts calculatePlanDurationMonths) -/

inductive TargetMode where
  | duration
  | date

/-- Milliseconds per day; completion.setDate(getDate() + n) is modelled as
adding n days of milliseconds. -/
def dayMs : ℚ := 86400000

/-- store.ts calculatePlanDurationMonths. The target date input is the
parsed Date value in ms: none models both the empty string and an
unparseable date (both fall back to 4 months and no completion date). -/
def calculatePlanDurationMonths (mode : TargetMode) (durationValue : String)
    (targetDateMs : Option ℚ) (nowMs : ℚ) : ℚ × Option ℚ :=
  match mode with
  | .duration =>
      let months := (parsePositiveFloat durationValue).getD 4
      (months, some (nowMs + (max (jsRound (months * 30.4375)) 1 : ℤ) * dayMs))
  | .date =>
      match targetDateMs with
      | none => (4, none)
      | some targetMs =>
          let diffMonths := (targetMs - nowMs) / (1000 * 60 * 60 * 24 * 30.4375)
          (if 0 < diffMonths then diffMonths else 1, some targetMs)

/-! ### Payday date arithmetic (analytics.ts clampDayForMonth,
resolveIncomeDate); JS Dates are year/month(0-based)/day triples, with the
Date constructor's month overflow normalisation made explicit (ℤ division
is euclidean, which for the positive divisor 12 is the JS
Math.floor-division used for this normalisation). -/

def isLeapYear (y : ℤ) : Bool :=
  y % 4 == 0 && (y % 100 != 0 || y % 400 == 0)

/-- new Date(year, month + 1, 0).getDate(): the number of days of the
month (year, month) after JS month normalisation into 0..11. -/
def daysInMonth (year month : ℤ) : ℤ :=
  let y := year + month / 12
  let m := month % 12
  if m = 1 then (if isLeapYear y then 29 else 28)
  else if m = 3 ∨ m = 5 ∨ m = 8 ∨ m = 10 then 30
  else 31

/-- analytics.ts clampDayForMonth (the day argument is a finite number
here, so the Number.isFinite guards of the source are vacuous). -/
def clampDayForMonth (year month : ℤ) (day : ℚ) : ℤ :=
  let lastDay := daysInMonth year month
  max 1 (min (ratFloor day) lastDay)

structure SimpleDate where
  year : ℤ
  month : ℤ
  day : ℤ
  deriving DecidableEq

/-- The firstOccurrence computation of resolveIncomeDate: this month if
the start day has not passed the clamped income day, else next month
(with its own clamp). -/
def firstOccurrenceOf (start : SimpleDate) (day : ℚ) : SimpleDate :=
  let clampCurrent := clampDayForMonth start.year start.month day
  if start.day ≤ clampCurrent then
    ⟨start.year, start.month, clampCurrent⟩
  else
    let nextY := start.year + (start.month + 1) / 12
    let nextM := (start.month + 1) % 12
    ⟨nextY, nextM, clampDayForMonth nextY nextM day⟩

/-- analytics.ts resolveIncomeDate: the offset-th payday occurrence from
start, re-clamping the configured day for each target month. -/
def resolveIncomeDate (start : SimpleDate) (day : ℚ) (offset : ℤ) : SimpleDate :=
  let firstOccurrence := firstOccurrenceOf start day
  if offset ≤ 1 then firstOccurrence
  else
    let monthIndex := firstOccurrence.month + (offset - 1)
    let targetYear := firstOccurrence.year + monthIndex / 12
    let targetMonth := monthIndex % 12
    ⟨targetYear, targetMonth, clampDayForMonth targetYear targetMonth day⟩

/-- Absolute month counter, for stating that consecutive occurrences land
in consecutive months. -/
def monthsSinceEpoch (d : SimpleDate) : ℤ := 12 * d.year + d.month

/-! ### Snapshot store (store.ts captureSnapshot / setSnapshots /
removeSnapshot / restoreSnapshot) -/

structure NetWorthSnapshot where
  id : String
  capturedAt : ℚ
  value : ℚ
  deriving DecidableEq

def snapshotLe (a b : NetWorthSnapshot) : Prop := a.capturedAt ≤ b.capturedAt

instance : DecidableRel snapshotLe :=
  fun a b => inferInstanceAs (Decidable (a.capturedAt ≤ b.capturedAt))

instance : IsTotal NetWorthSnapshot snapshotLe :=
  ⟨fun a b => le_total a.capturedAt b.capturedAt⟩

instance : IsTrans NetWorthSnapshot snapshotLe :=
  ⟨fun _ _ _ h1 h2 => le_trans h1 h2⟩

/-- [...].sort((a, b) => a.capturedAt.localeCompare(b.capturedAt)): a
stable sort ascending by capture time. -/
def sortSnapshots (l : List NetWorthSnapshot) : List NetWorthSnapshot :=
  List.insertionSort snapshotLe l

/-- captureSnapshot appends the freshly captured point and re-sorts (the
snapshot argument stands for normaliseSnapshot of the captured value). -/
def captureSnapshot (snapshots : List NetWorthSnapshot) (snapshot : NetWorthSnapshot) :
    List NetWorthSnapshot :=
  sortSnapshots (snapshots ++ [snapshot])

/-- setSnapshots replaces the whole list (normalised) and sorts it. -/
def setSnapshots (input : List NetWorthSnapshot) : List NetWorthSnapshot :=
  sortSnapshots input

def removeSnapshot (snapshots : List NetWorthSnapshot) (id : String) : List NetWorthSnapshot :=
  snapshots.filter fun s => s.id != id

def restoreSnapshot (snapshots : List NetWorthSnapshot) (restored : NetWorthSnapshot) :
    List NetWorthSnapshot :=
  sortSnapshots ((snapshots.filter fun item => item.id != restored.id) ++ [restored])

/-- The snapshot-list states reachable through the snapshot store
operations (initial empty list, capture, wholesale replacement which also
covers hydration, removal, single-snapshot restore). -/
inductive SnapshotsReachable : List NetWorthSnapshot → Prop where
  | init : SnapshotsReachable []
  | capture (l : List NetWorthSnapshot) (snapshot : NetWorthSnapshot) :
      SnapshotsReachable l → SnapshotsReachable (captureSnapshot l snapshot)
  | set (input : List NetWorthSnapshot) : SnapshotsReachable (setSnapshots input)
  | remove (l : List NetWorthSnapshot) (id : String) :
      SnapshotsReachable l → SnapshotsReachable (removeSnapshot l id)
  | restore (l : List NetWorthSnapshot) (snapshot : NetWorthSnapshot) :
      SnapshotsReachable l → SnapshotsReachable (restoreSnapshot l snapshot)

/-! ### Concrete fixtures used by counterexamples and scenario checks -/

/-- Scenario A of the spec: a credit card with explicit limit 10000 and
available amount 3000. -/
def scenarioAEntry : Entry :=
  ⟨"a1", "", "3000", RowType.krediKarti, CurrencyUnit.tl, some "10000"⟩

/-- Scenario B of the spec: a debt row named QNB Kredi. -/
def scenarioBEntry : Entry := ⟨"b1", "QNB Kredi", "", RowType.borc, CurrencyUnit.tl, none⟩

/-- A crypto (hence USD) entry of amount 100. -/
def c3Entry : Entry := ⟨"c1", "btc", "100", RowType.kripto, CurrencyUnit.usd, none⟩

/-- A cash (hence TL) entry. -/
def c5Entry : Entry := ⟨"e1", "Cash row", "100", RowType.nakit, CurrencyUnit.tl, none⟩

/-- The two-fold decomposition invariant carried by the totals fold. -/
def accInvariant (acc : TotalsAcc) : Prop :=
  acc.debt = acc.cardDebt + acc.otherDebt ∧
  acc.assets = acc.cryptoAssets + acc.assetAndReceivables

/-! ### Helper lemmas -/

theorem ratFloor_eq (x : ℚ) : ratFloor x = ⌊x⌋ := Rat.floor_def.symm

theorem round2_close (x : ℚ) : |round2 x - x| < 1 / 100 := by
  have h1 : ((⌊100 * x + 1 / 2⌋ : ℤ) : ℚ) ≤ 100 * x + 1 / 2 := Int.floor_le _
  have h2 : (100 * x + 1 / 2 : ℚ) < ⌊100 * x + 1 / 2⌋ + 1 := Int.lt_floor_add_one _
  rw [round2, jsRound, ratFloor_eq, abs_sub_lt_iff]
  constructor <;> linarith

theorem parseAmount_eval (s : String) (p : FloatParts)
    (h1 : s.toList.isEmpty = false)
    (h2 : jsParseFloat (replaceFirstComma (stripWs s.toList)) = some p) :
    parseAmount s = partsToRat p := by
  rw [parseAmount, parseAmountChars, h1, h2]
  simp

theorem parseAmount_10000 : parseAmount "10000" = 10000 := by
  rw [parseAmount_eval "10000" ⟨1, 10000, 0, 0, 0⟩ (by decide) (by decide)]
  norm_num [partsToRat, pow10]

theorem parseAmount_100 : parseAmount "100" = 100 := by
  rw [parseAmount_eval "100" ⟨1, 100, 0, 0, 0⟩ (by decide) (by decide)]
  norm_num [partsToRat, pow10]

theorem parseAmount_0 : parseAmount "0" = 0 := by
  rw [parseAmount_eval "0" ⟨1, 0, 0, 0, 0⟩ (by decide) (by decide)]
  norm_num [partsToRat, pow10]

theorem foldEntry_invariant (r : ℚ) (acc : TotalsAcc) (e : Entry) (h : accInvariant acc) :
    accInvariant (foldEntry r acc e) := by
  obtain ⟨h1, h2⟩ := h
  unfold foldEntry accInvariant
  cases e.type <;> dsimp only <;> constructor <;> linarith

theorem foldl_invariant (r : ℚ) (entries : List Entry) (acc : TotalsAcc)
    (h : accInvariant acc) : accInvariant (entries.foldl (foldEntry r) acc) := by
  induction entries generalizing acc with
  | nil => exact h
  | cons e rest ih => exact ih _ (foldEntry_invariant r acc e h)

theorem applyUnitForType_unit (e : Entry) :
    (applyUnitForType e).unit = getUnitForType (applyUnitForType e).type := by
  by_cases h : e.unit = getUnitForType e.type
  · simp [applyUnitForType, h]
  · simp [applyUnitForType, h]

theorem updateEntryOne_unit (e : Entry) (f : EntryField) :
    (updateEntryOne e f).unit = getUnitForType (updateEntryOne e f).type := by
  cases f <;> exact applyUnitForType_unit _

/-! ### Claim theorems -/

/-- C1: for every ledger state (any entries, any usdRate) and capture
time, the Totals returned by the recomputation satisfy
netWorth = assets - debt exactly; net worth is recomputed, never stored. -/
theorem c1_networth_identity (s : FinanceState) (nowT : ℚ) :
    (autoCalculateTotals s nowT).totals.netWorth
      = (autoCalculateTotals s nowT).totals.assets
          - (autoCalculateTotals s nowT).totals.debt := rfl

/-- C1 witness: the identity evaluated on a concrete state. -/
theorem c1_networth_identity_witness :
    (autoCalculateTotals ⟨[c3Entry], "40", ⟨0, 0, 0⟩, ⟨0, 0, 0, 0⟩, ⟨[], [], [], []⟩, []⟩ 1).totals.netWorth
      = (autoCalculateTotals ⟨[c3Entry], "40", ⟨0, 0, 0⟩, ⟨0, 0, 0, 0⟩, ⟨[], [], [], []⟩, []⟩ 1).totals.assets
          - (autoCalculateTotals ⟨[c3Entry], "40", ⟨0, 0, 0⟩, ⟨0, 0, 0, 0⟩, ⟨[], [], [], []⟩, []⟩ 1).totals.debt :=
  c1_networth_identity _ 1

/-- C2: the category breakdown exactly decomposes the aggregate totals:
cards + debts = debt and crypto + assets = assets, where the aggregate and
the per-bucket values are accumulated by the same fold over the entries. -/
theorem c2_category_decomposition (s : FinanceState) (nowT : ℚ) :
    (autoCalculateTotals s nowT).categoryTotals.cards
        + (autoCalculateTotals s nowT).categoryTotals.debts
      = (autoCalculateTotals s nowT).totals.debt ∧
    (autoCalculateTotals s nowT).categoryTotals.crypto
        + (autoCalculateTotals s nowT).categoryTotals.assets
      = (autoCalculateTotals s nowT).totals.assets := by
  have h := foldl_invariant (parseAmount s.usdRate) s.entries initAcc
    (by constructor <;> norm_num [initAcc])
  obtain ⟨h1, h2⟩ := h
  exact ⟨h1.symm, h2.symm⟩

/-- C2 witness (the theorem has no hypothesis; recorded for symmetry on a
concrete state). -/
theorem c2_category_decomposition_witness :
    (autoCalculateTotals ⟨[c3Entry], "40", ⟨0, 0, 0⟩, ⟨0, 0, 0, 0⟩, ⟨[], [], [], []⟩, []⟩ 1).categoryTotals.cards
        + (autoCalculateTotals ⟨[c3Entry], "40", ⟨0, 0, 0⟩, ⟨0, 0, 0, 0⟩, ⟨[], [], [], []⟩, []⟩ 1).categoryTotals.debts
      = (autoCalculateTotals ⟨[c3Entry], "40", ⟨0, 0, 0⟩, ⟨0, 0, 0, 0⟩, ⟨[], [], [], []⟩, []⟩ 1).totals.debt :=
  (c2_category_decomposition _ 1).1

/-- C3 counterexample: with usdRate "0" (non-positive), the Foreign crypto
entry of amount "100" contributes 100 — its raw parsed amount — to assets
and to the crypto bucket, not 0 as the claim states. -/
theorem c3_counterexample :
    parseAmount "0" ≤ 0 ∧
    c3Entry.unit = CurrencyUnit.usd ∧
    (computeTotals [c3Entry] "0").1.assets = 100 ∧
    (computeTotals [c3Entry] "0").2.crypto = 100 ∧
    (100 : ℚ) ≠ 0 := by
  have hAmt : amountInTl c3Entry (parseAmount "0") = 100 := by
    rw [amountInTl, parseAmount_0]
    have : ¬(c3Entry.unit = CurrencyUnit.usd ∧ (0 : ℚ) < 0) := by
      rintro ⟨-, h⟩; exact absurd h (lt_irrefl 0)
    rw [if_neg this]
    have : c3Entry.amount = "100" := rfl
    rw [this, parseAmount_100]
  have hTot : computeTotals [c3Entry] "0"
      = (⟨0, 100, 100⟩, ⟨0, 0, 100, 0⟩) := by
    rw [computeTotals]
    have hAcc : foldEntries [c3Entry] (parseAmount "0") = ⟨0, 0 + 100, 0, 0, 0 + 100, 0⟩ := by
      rw [foldEntries]
      show foldEntry (parseAmount "0") initAcc c3Entry = _
      rw [foldEntry, hAmt]
      rfl
    rw [hAcc]
    simp only [Prod.mk.injEq, Totals.mk.injEq, CategoryTotals.mk.injEq]
    norm_num
  refine ⟨le_of_eq parseAmount_0, rfl, ?_, ?_, by norm_num⟩
  · rw [hTot]
  · rw [hTot]

/-- C3 (amended): for a Foreign (USD) entry, when the manually supplied rate
parses to a non-positive number the entry contributes its raw parsed amount
unconverted (not 0); when the rate is positive, amount times rate is used;
a crypto entry adds exactly that converted amount to assets and to the
crypto bucket. -/
theorem c3_rate_fallback :
    (∀ (e : Entry) (r : ℚ), r ≤ 0 → amountInTl e r = parseAmount e.amount) ∧
    (∀ (e : Entry) (r : ℚ), e.unit = CurrencyUnit.usd → 0 < r →
        amountInTl e r = parseAmount e.amount * r) ∧
    (∀ (acc : TotalsAcc) (e : Entry) (r : ℚ), e.type = RowType.kripto →
        (foldEntry r acc e).assets = acc.assets + amountInTl e r ∧
        (foldEntry r acc e).cryptoAssets = acc.cryptoAssets + amountInTl e r) := by
  refine ⟨?_, ?_, ?_⟩
  · intro e r hr
    rw [amountInTl, if_neg]
    rintro ⟨-, h⟩
    exact absurd hr (not_le.mpr h)
  · intro e r hu hr
    rw [amountInTl, if_pos ⟨hu, hr⟩]
  · intro acc e r ht
    rw [foldEntry, ht]
    exact ⟨rfl, rfl⟩

/-- C3 witness: the fallback applied to the concrete crypto entry at
rate 0. -/
theorem c3_rate_fallback_witness :
    amountInTl c3Entry 0 = parseAmount c3Entry.amount :=
  c3_rate_fallback.1 c3Entry 0 le_rfl

/-- C5 counterexample: setting the unit field of a Cash (Nakit) entry to
USD does not store the user's choice — applyUnitForType resets it to TL. -/
theorem c5_counterexample :
    (updateEntry [c5Entry] "e1" (EntryField.unit CurrencyUnit.usd)).map Entry.unit
        = [CurrencyUnit.tl] ∧
    CurrencyUnit.tl ≠ CurrencyUnit.usd := by
  constructor
  · decide
  · decide

/-- C5 (amended): the unit is derived from the type for every type, not
only Crypto and CreditCard: in every reachable ledger state each entry has
unit = getUnitForType(type) (USD for Crypto, TL for all other types), so a
user-chosen unit on Debt/Receivable/Cash entries is never stored. -/
theorem c5_unit_derived (l : List Entry) (h : EntriesReachable l) :
    ∀ e ∈ l, e.unit = getUnitForType e.type := by
  induction h with
  | init => intro e he; cases he
  | add l newEntry _ ih =>
      intro e he
      rw [addEntry] at he
      rcases List.mem_append.mp he with h1 | h1
      · exact ih e h1
      · rw [List.mem_singleton.mp h1]; exact applyUnitForType_unit newEntry
  | update l id f _ ih =>
      intro e he
      rw [updateEntry] at he
      obtain ⟨a, ha, hae⟩ := List.mem_map.mp he
      by_cases hid : a.id = id
      · rw [if_pos hid] at hae
        rw [← hae]
        exact updateEntryOne_unit a f
      · rw [if_neg hid] at hae
        rw [← hae]
        exact ih a ha
  | remove l id _ ih =>
      intro e he
      exact ih e (List.mem_of_mem_filter he)
  | hydrate input =>
      intro e he
      obtain ⟨a, _, hae⟩ := List.mem_map.mp he
      rw [← hae]
      exact applyUnitForType_unit a

/-- C5 witness: the invariant instantiated on the reachable one-entry
ledger obtained by adding c5Entry to the empty ledger. -/
theorem c5_unit_derived_witness :
    (applyUnitForType c5Entry).unit = getUnitForType (applyUnitForType c5Entry).type :=
  c5_unit_derived (addEntry [] c5Entry)
    (EntriesReachable.add [] c5Entry EntriesReachable.init)
    (applyUnitForType c5Entry) (by decide)

/-- C4: the credit facility resolver follows the two-tier rule — explicit
positive limit on a CreditCard entry (issuer = name with generic fallback,
debt = max(limit - available, 0)), else case-insensitive substring match of
the name against the registry (QNB 282000 before Akbank 31700, same debt
formula), else null — and resolves Scenario A to debt 7000 and Scenario B
to debt 232000. -/
theorem c4_credit_resolver :
    (∀ (e : Entry) (avail : ℚ), e.type = RowType.krediKarti →
        0 < parseAmount (e.creditLimit.getD "") →
        getCreditCardMeta e avail
          = some ⟨if e.name = "" then "Kredi Kartı" else e.name,
                  parseAmount (e.creditLimit.getD ""),
                  max (parseAmount (e.creditLimit.getD "") - avail) 0⟩) ∧
    (∀ (e : Entry) (avail : ℚ),
        ¬(e.type = RowType.krediKarti ∧ 0 < parseAmount (e.creditLimit.getD "")) →
        containsSeq "qnb".toList (normalizedName e.name) = true →
        getCreditCardMeta e avail = some ⟨"QNB", qnbLimit, max (qnbLimit - avail) 0⟩) ∧
    (∀ (e : Entry) (avail : ℚ),
        ¬(e.type = RowType.krediKarti ∧ 0 < parseAmount (e.creditLimit.getD "")) →
        containsSeq "qnb".toList (normalizedName e.name) = false →
        containsSeq "akbank".toList (normalizedName e.name) = true →
        getCreditCardMeta e avail = some ⟨"Akbank", akbankLimit, max (akbankLimit - avail) 0⟩) ∧
    (∀ (e : Entry) (avail : ℚ),
        ¬(e.type = RowType.krediKarti ∧ 0 < parseAmount (e.creditLimit.getD "")) →
        containsSeq "qnb".toList (normalizedName e.name) = false →
        containsSeq "akbank".toList (normalizedName e.name) = false →
        getCreditCardMeta e avail = none) ∧
    (getCreditCardMeta scenarioAEntry 3000).map CreditCardMeta.debt = some 7000 ∧
    (getCreditCardMeta scenarioBEntry 50000).map CreditCardMeta.debt = some 232000 := by
  have tier1 : ∀ (e : Entry) (avail : ℚ), e.type = RowType.krediKarti →
      0 < parseAmount (e.creditLimit.getD "") →
      getCreditCardMeta e avail
        = some ⟨if e.name = "" then "Kredi Kartı" else e.name,
                parseAmount (e.creditLimit.getD ""),
                max (parseAmount (e.creditLimit.getD "") - avail) 0⟩ := by
    intro e avail ht hl
    rw [getCreditCardMeta, if_pos ⟨ht, hl⟩]
  have tier2 : ∀ (e : Entry) (avail : ℚ),
      ¬(e.type = RowType.krediKarti ∧ 0 < parseAmount (e.creditLimit.getD "")) →
      containsSeq "qnb".toList (normalizedName e.name) = true →
      getCreditCardMeta e avail = some ⟨"QNB", qnbLimit, max (qnbLimit - avail) 0⟩ := by
    intro e avail hno hq
    have hne : (normalizedName e.name).isEmpty = false := by
      cases hnn : normalizedName e.name with
      | nil => rw [hnn] at hq; exact absurd hq (by decide)
      | cons a as => rfl
    rw [getCreditCardMeta, if_neg hno]
    simp only [hne, Bool.false_eq_true, if_false, hq, if_true]
  refine ⟨tier1, tier2, ?_, ?_, ?_, ?_⟩
  · intro e avail hno hq ha
    have hne : (normalizedName e.name).isEmpty = false := by
      cases hnn : normalizedName e.name with
      | nil => rw [hnn] at ha; exact absurd ha (by decide)
      | cons a as => rfl
    rw [getCreditCardMeta, if_neg hno]
    simp only [hne, Bool.false_eq_true, if_false, hq, ha, if_true]
  · intro e avail hno hq ha
    rw [getCreditCardMeta, if_neg hno]
    by_cases hne : (normalizedName e.name).isEmpty = true
    · simp only [hne, if_true]
    · simp only [Bool.not_eq_true] at hne
      simp only [hne, Bool.false_eq_true, if_false, hq, ha]
  · have h := tier1 scenarioAEntry 3000 rfl
      (by rw [show scenarioAEntry.creditLimit.getD "" = "10000" from rfl, parseAmount_10000]; norm_num)
    rw [h]
    rw [show scenarioAEntry.creditLimit.getD "" = "10000" from rfl, parseAmount_10000]
    rw [Option.map_some']
    congr 1
    norm_num
  · have h := tier2 scenarioBEntry 50000
      (by
        rintro ⟨ht, -⟩
        exact absurd ht (by decide))
      (by decide)
    rw [h, Option.map_some']
    congr 1
    rw [qnbLimit]
    norm_num

/-- C4 witness: tier 1 applied to the Scenario A entry, its hypotheses
discharged concretely. -/
theorem c4_credit_resolver_witness :
    getCreditCardMeta scenarioAEntry 3000
      = some ⟨if scenarioAEntry.name = "" then "Kredi Kartı" else scenarioAEntry.name,
              parseAmount (scenarioAEntry.creditLimit.getD ""),
              max (parseAmount (scenarioAEntry.creditLimit.getD "") - 3000) 0⟩ :=
  c4_credit_resolver.1 scenarioAEntry 3000 rfl
    (by rw [show scenarioAEntry.creditLimit.getD "" = "10000" from rfl, parseAmount_10000]; norm_num)

/-- C6 counterexample: in date mode with a parseable target 15 days ahead
(now = 0 ms, target = 15 days in ms) the computed duration is 240/487
months, strictly below one unit, while the claimed formula
max(difference in 30.4375-day units, 1) gives 1. -/
theorem c6_counterexample :
    (calculatePlanDurationMonths TargetMode.date "" (some (15 * 86400000)) 0).1 = 240 / 487 ∧
    max ((15 * 86400000 - 0) / (1000 * 60 * 60 * 24 * 30.4375) : ℚ) 1 = 1 ∧
    (240 / 487 : ℚ) ≠ 1 := by
  refine ⟨?_, ?_, by norm_num⟩
  · rw [calculatePlanDurationMonths]
    rw [if_pos (by norm_num : (0 : ℚ) < (15 * 86400000 - 0) / (1000 * 60 * 60 * 24 * 30.4375))]
    norm_num
  · rw [max_eq_right (by norm_num : ((15 * 86400000 - 0) / (1000 * 60 * 60 * 24 * 30.4375) : ℚ) ≤ 1)]

/-- C6 (amended): in date mode with a parseable target date the duration is
the (targetDate - today) difference in 30.4375-day units when that
difference is positive — it may be smaller than 1 — and 1 when the
difference is non-positive; the completion date is the target date; with
no parseable target the result is 4 months and no completion date. -/
theorem c6_date_mode (dv : String) (nowMs targetMs : ℚ) :
    calculatePlanDurationMonths TargetMode.date dv none nowMs = (4, none) ∧
    (0 < (targetMs - nowMs) / (1000 * 60 * 60 * 24 * 30.4375) →
      calculatePlanDurationMonths TargetMode.date dv (some targetMs) nowMs
        = ((targetMs - nowMs) / (1000 * 60 * 60 * 24 * 30.4375), some targetMs)) ∧
    ((targetMs - nowMs) / (1000 * 60 * 60 * 24 * 30.4375) ≤ 0 →
      calculatePlanDurationMonths TargetMode.date dv (some targetMs) nowMs
        = (1, some targetMs)) := by
  refine ⟨rfl, ?_, ?_⟩
  · intro h
    rw [calculatePlanDurationMonths, if_pos h]
  · intro h
    rw [calculatePlanDurationMonths, if_neg (not_lt.mpr h)]

/-- C6 witness: the positive-difference branch at now = 0 and a target two
whole 30.4375-day units ahead. -/
theorem c6_date_mode_witness :
    calculatePlanDurationMonths TargetMode.date "" (some (2 * 2629800000)) 0
      = ((2 * 2629800000 - 0) / (1000 * 60 * 60 * 24 * 30.4375), some (2 * 2629800000)) :=
  (c6_date_mode "" 0 (2 * 2629800000)).2.1 (by norm_num)

theorem getLast?_drop_of_lt {α : Type} (l : List α) (n : ℕ) (hn : n < l.length) :
    (l.drop n).getLast? = l.getLast? := by
  induction l generalizing n with
  | nil => simp at hn
  | cons a as ih =>
      cases n with
      | zero => rfl
      | succ m =>
          rw [List.drop_succ_cons, ih m (by simpa using hn)]
          cases as with
          | nil => simp at hn
          | cons b bs => rw [List.getLast?_cons_cons]

theorem trimCategory_concat_getLast? (h : List HistoryPoint) (p : HistoryPoint) :
    (trimCategory (h ++ [p])).getLast? = some p := by
  rw [trimCategory]
  split
  case isTrue hl =>
      have hle : (h ++ [p]).length - MAX_CATEGORY_HISTORY ≤ h.length := by
        simp only [List.length_append, List.length_singleton, MAX_CATEGORY_HISTORY] at hl ⊢
        omega
      rw [List.drop_append_of_le_length hle, List.getLast?_concat]
  case isFalse _ => exact List.getLast?_concat _

theorem planTrim_concat_getLast? (h : List HistoryPoint) (p : HistoryPoint) :
    (planTrim (h ++ [p])).getLast? = some p := by
  rw [planTrim]
  split
  case isTrue hl =>
      have hle : (1 : ℕ) ≤ h.length := by
        simp only [List.length_append, List.length_singleton, MAX_PLAN_HISTORY] at hl
        omega
      rw [List.drop_append_of_le_length hle, List.getLast?_concat]
  case isFalse _ => exact List.getLast?_concat _

theorem appendPoint_getLast_value (h : List HistoryPoint) (t v : ℚ) :
    ((appendPoint h t v).getLast?).map HistoryPoint.value = some v := by
  rw [appendPoint]
  cases hl : h.getLast? with
  | none =>
      show ((trimCategory (h ++ [⟨t, v⟩])).getLast?).map HistoryPoint.value = some v
      rw [trimCategory_concat_getLast?]
      rfl
  | some last =>
      by_cases he : last.value = v
      · simp only [if_pos he, hl, Option.map_some']
        rw [he]
      · simp only [if_neg he]
        rw [trimCategory_concat_getLast?]
        rfl

theorem appendPoint_of_last_eq (h : List HistoryPoint) (t v : ℚ) (last : HistoryPoint)
    (hl : h.getLast? = some last) (he : last.value = v) : appendPoint h t v = h := by
  rw [appendPoint, hl]
  dsimp only
  rw [if_pos he]

theorem planAppend_of_close (h : List HistoryPoint) (t w : ℚ) (last : HistoryPoint)
    (hl : h.getLast? = some last) (hc : |last.value - w| < 1 / 100) : planAppend h t w = h := by
  rw [planAppend, hl]
  dsimp only
  rw [if_neg (not_le.mpr hc)]

theorem planAppend_getLast_close (h : List HistoryPoint) (t w : ℚ) :
    ∃ last, (planAppend h t w).getLast? = some last ∧ |last.value - w| < 1 / 100 := by
  rw [planAppend]
  cases hl : h.getLast? with
  | none =>
      refine ⟨⟨t, round2 w⟩, ?_, ?_⟩
      · show (planTrim (h ++ [⟨t, round2 w⟩])).getLast? = _
        rw [planTrim_concat_getLast?]
      · exact round2_close w
  | some last =>
      by_cases hc : 1 / 100 ≤ |last.value - w|
      · refine ⟨⟨t, round2 w⟩, ?_, round2_close w⟩
        simp only [if_pos hc]
        rw [planTrim_concat_getLast?]
      · refine ⟨last, ?_, not_le.mp hc⟩
        simp only [if_neg hc, hl]

theorem trimCategory_drop_concat (X : List HistoryPoint) (p : HistoryPoint) :
    trimCategory (X.drop (X.length - MAX_CATEGORY_HISTORY) ++ [p])
      = (X ++ [p]).drop ((X ++ [p]).length - MAX_CATEGORY_HISTORY) := by
  by_cases hlen : X.length < MAX_CATEGORY_HISTORY
  · have h0 : X.length - MAX_CATEGORY_HISTORY = 0 := by omega
    have h1 : (X ++ [p]).length - MAX_CATEGORY_HISTORY = 0 := by
      simp only [List.length_append, List.length_singleton]
      omega
    rw [h0, h1, List.drop_zero, List.drop_zero, trimCategory, if_neg]
    simp only [List.length_append, List.length_singleton, not_lt]
    omega
  · push_neg at hlen
    have hXlen : (X.drop (X.length - MAX_CATEGORY_HISTORY) ++ [p]).length
        = MAX_CATEGORY_HISTORY + 1 := by
      simp only [List.length_append, List.length_drop, List.length_singleton]
      omega
    rw [trimCategory, if_pos (by rw [hXlen]; omega), hXlen]
    have h2 : MAX_CATEGORY_HISTORY + 1 - MAX_CATEGORY_HISTORY = 1 := by omega
    rw [h2]
    rw [List.drop_append_of_le_length
      (by simp only [List.length_drop, MAX_CATEGORY_HISTORY] at hlen ⊢; omega)]
    rw [List.drop_drop]
    have h3 : (X ++ [p]).length - MAX_CATEGORY_HISTORY = X.length + 1 - MAX_CATEGORY_HISTORY := by
      simp only [List.length_append, List.length_singleton]
    rw [h3]
    rw [List.drop_append_of_le_length (by simp only [MAX_CATEGORY_HISTORY] at hlen ⊢; omega)]
    have h4 : X.length - MAX_CATEGORY_HISTORY + 1 = X.length + 1 - MAX_CATEGORY_HISTORY := by
      omega
    rw [h4]

theorem historyFold_append (ps : List (ℚ × ℚ)) (p : ℚ × ℚ) :
    historyFold (ps ++ [p]) = appendPoint (historyFold ps) p.1 p.2 := by
  rw [historyFold, historyFold, List.foldl_append]
  rfl

theorem historyFold_eq (ps : List (ℚ × ℚ))
    (hc : List.Chain' (fun a b => a ≠ b) (ps.map Prod.snd)) :
    historyFold ps = (ps.map mkPoint).drop (ps.length - MAX_CATEGORY_HISTORY) := by
  induction ps using List.reverseRecOn with
  | nil => rfl
  | append_singleton qs p ih =>
      rw [List.map_append] at hc
      obtain ⟨h1, -, h3⟩ := List.chain'_append.mp hc
      rw [historyFold_append, ih h1]
      cases hq : qs.getLast? with
      | none =>
          have hqe : qs = [] := by
            cases qs with
            | nil => rfl
            | cons a as =>
                have : ((a :: as).getLast?).isSome = true := List.getLast?_isSome.mpr (by simp)
                rw [hq] at this
                cases this
          subst hqe
          simp [appendPoint, trimCategory, MAX_CATEGORY_HISTORY, mkPoint]
      | some q =>
          have hqs : qs ≠ [] := by
            intro h
            rw [h] at hq
            cases hq
          have hqlt : qs.length - MAX_CATEGORY_HISTORY < (qs.map mkPoint).length := by
            rw [List.length_map]
            have : 0 < qs.length := List.length_pos.mpr hqs
            simp only [MAX_CATEGORY_HISTORY]
            omega
          have hlast : ((qs.map mkPoint).drop (qs.length - MAX_CATEGORY_HISTORY)).getLast?
              = some (mkPoint q) := by
            rw [getLast?_drop_of_lt _ _ hqlt, List.getLast?_map, hq, Option.map_some']
          have hne : ¬((mkPoint q).value = p.2) := by
            have hx : q.2 ∈ (qs.map Prod.snd).getLast? := by
              rw [List.getLast?_map, hq, Option.map_some']
              rfl
            have hy : p.2 ∈ ([p.2] : List ℚ).head? := rfl
            exact h3 q.2 hx p.2 hy
          rw [appendPoint, hlast]
          dsimp only
          rw [if_neg hne]
          have := trimCategory_drop_concat (qs.map mkPoint) (mkPoint p)
          simp only [List.length_map, List.length_append, List.length_singleton, mkPoint] at this ⊢
          rw [List.map_append]
          exact this

theorem trimCategory_length_le (l : List HistoryPoint)
    (hb : l.length ≤ MAX_CATEGORY_HISTORY + 1) :
    (trimCategory l).length ≤ MAX_CATEGORY_HISTORY := by
  rw [trimCategory]
  split
  case isTrue h => rw [List.length_drop]; omega
  case isFalse h => omega

theorem appendPoint_length_le (h : List HistoryPoint) (t v : ℚ)
    (hb : h.length ≤ MAX_CATEGORY_HISTORY) :
    (appendPoint h t v).length ≤ MAX_CATEGORY_HISTORY := by
  rw [appendPoint]
  cases hl : h.getLast? with
  | none =>
      show (trimCategory (h ++ [⟨t, v⟩])).length ≤ MAX_CATEGORY_HISTORY
      exact trimCategory_length_le _ (by simp only [List.length_append, List.length_singleton]; omega)
  | some last =>
      dsimp only
      split
      · exact hb
      · exact trimCategory_length_le _
          (by simp only [List.length_append, List.length_singleton]; omega)

theorem planTrim_length_le (l : List HistoryPoint)
    (hb : l.length ≤ MAX_PLAN_HISTORY + 1) :
    (planTrim l).length ≤ MAX_PLAN_HISTORY := by
  rw [planTrim]
  split
  case isTrue h => rw [List.length_drop]; omega
  case isFalse h => omega

theorem planAppend_length_le (h : List HistoryPoint) (t v : ℚ)
    (hb : h.length ≤ MAX_PLAN_HISTORY) :
    (planAppend h t v).length ≤ MAX_PLAN_HISTORY := by
  rw [planAppend]
  cases hl : h.getLast? with
  | none =>
      show (planTrim (h ++ [⟨t, round2 v⟩])).length ≤ MAX_PLAN_HISTORY
      exact planTrim_length_le _ (by simp only [List.length_append, List.length_singleton]; omega)
  | some last =>
      dsimp only
      split
      · exact planTrim_length_le _
          (by simp only [List.length_append, List.length_singleton]; omega)
      · exact hb

/-- C7: folding N adjacent-distinct values through the category recorder
from the empty series yields exactly the newest min(N, 200) points (the
200-suffix of the would-be full series, oldest evicted first); for
N > 200 the length is exactly 200 and the values are the most recent 200
in order; with increasing capture times the series is ascending; one
append step preserves the 200 bound, and one plan-history step preserves
the 400 bound. -/
theorem c7_history_bounds :
    (∀ ps : List (ℚ × ℚ), List.Chain' (fun a b => a ≠ b) (ps.map Prod.snd) →
        historyFold ps = (ps.map mkPoint).drop (ps.length - MAX_CATEGORY_HISTORY)) ∧
    (∀ ps : List (ℚ × ℚ), List.Chain' (fun a b => a ≠ b) (ps.map Prod.snd) →
        MAX_CATEGORY_HISTORY < ps.length →
        (historyFold ps).length = MAX_CATEGORY_HISTORY ∧
        (historyFold ps).map HistoryPoint.value
          = (ps.map Prod.snd).drop (ps.length - MAX_CATEGORY_HISTORY)) ∧
    (∀ ps : List (ℚ × ℚ), List.Chain' (fun a b => a ≠ b) (ps.map Prod.snd) →
        List.Pairwise (fun a b => a < b) (ps.map Prod.fst) →
        List.Pairwise (fun a b : HistoryPoint => a.capturedAt < b.capturedAt) (historyFold ps)) ∧
    (∀ (h : List HistoryPoint) (t v : ℚ), h.length ≤ MAX_CATEGORY_HISTORY →
        (appendPoint h t v).length ≤ MAX_CATEGORY_HISTORY) ∧
    (∀ (h : List HistoryPoint) (t v : ℚ), h.length ≤ MAX_PLAN_HISTORY →
        (planAppend h t v).length ≤ MAX_PLAN_HISTORY) := by
  refine ⟨historyFold_eq, ?_, ?_, appendPoint_length_le, planAppend_length_le⟩
  · intro ps hc hlen
    rw [historyFold_eq ps hc]
    constructor
    · rw [List.length_drop, List.length_map]
      simp only [MAX_CATEGORY_HISTORY] at hlen ⊢
      omega
    · rw [List.map_drop, List.map_map]
      rfl
  · intro ps hc hp
    rw [historyFold_eq ps hc]
    refine List.Pairwise.sublist (List.drop_sublist _ _) ?_
    rw [List.pairwise_map]
    rw [List.pairwise_map] at hp
    exact hp

/-- C7 witness: the fold characterisation applied to a concrete
two-element sequence of distinct values. -/
theorem c7_history_bounds_witness :
    historyFold [((1 : ℚ), (5 : ℚ)), ((2 : ℚ), (7 : ℚ))]
      = ([((1 : ℚ), (5 : ℚ)), ((2 : ℚ), (7 : ℚ))].map mkPoint).drop
          ([((1 : ℚ), (5 : ℚ)), ((2 : ℚ), (7 : ℚ))].length - MAX_CATEGORY_HISTORY) :=
  c7_history_bounds.1 [((1 : ℚ), (5 : ℚ)), ((2 : ℚ), (7 : ℚ))]
    (by
      simp only [List.map_cons, List.map_nil, List.chain'_cons, List.chain'_singleton, and_true]
      norm_num)

/-- C8: recomputing totals a second time on an unchanged ledger returns
the identical state — same Totals, same CategoryTotals, no new category or
plan history point; moreover a category append is skipped whenever the
newest stored value equals the new value exactly, and a plan append is
skipped whenever the newest stored value is within 0.01 of the new net
worth. -/
theorem c8_idempotent :
    (∀ (s : FinanceState) (t1 t2 : ℚ),
        autoCalculateTotals (autoCalculateTotals s t1) t2 = autoCalculateTotals s t1) ∧
    (∀ (h : List HistoryPoint) (t v : ℚ) (last : HistoryPoint),
        h.getLast? = some last → last.value = v → appendPoint h t v = h) ∧
    (∀ (h : List HistoryPoint) (t w : ℚ) (last : HistoryPoint),
        h.getLast? = some last → |last.value - w| < 1 / 100 → planAppend h t w = h) := by
  refine ⟨?_, appendPoint_of_last_eq, planAppend_of_close⟩
  intro s t1 t2
  obtain ⟨en, ur, tot, ct, ch, ph⟩ := s
  obtain ⟨chc, chd, chcr, cha⟩ := ch
  simp only [autoCalculateTotals, FinanceState.mk.injEq, CategoryHistory.mk.injEq]
  refine ⟨trivial, trivial, trivial, trivial, ⟨?_, ?_, ?_, ?_⟩, ?_⟩
  · obtain ⟨last, hl, hv⟩ := Option.map_eq_some'.mp (appendPoint_getLast_value chc t1 _)
    exact appendPoint_of_last_eq _ t2 _ last hl hv
  · obtain ⟨last, hl, hv⟩ := Option.map_eq_some'.mp (appendPoint_getLast_value chd t1 _)
    exact appendPoint_of_last_eq _ t2 _ last hl hv
  · obtain ⟨last, hl, hv⟩ := Option.map_eq_some'.mp (appendPoint_getLast_value chcr t1 _)
    exact appendPoint_of_last_eq _ t2 _ last hl hv
  · obtain ⟨last, hl, hv⟩ := Option.map_eq_some'.mp (appendPoint_getLast_value cha t1 _)
    exact appendPoint_of_last_eq _ t2 _ last hl hv
  · obtain ⟨last, hl, hc⟩ := planAppend_getLast_close ph t1 _
    exact planAppend_of_close _ t2 _ last hl hc

/-- C8 witness: a category append with an unchanged newest value is a
no-op, at a concrete one-point series. -/
theorem c8_idempotent_witness :
    appendPoint [⟨1, 5⟩] 2 5 = [⟨1, 5⟩] :=
  c8_idempotent.2.1 [⟨1, 5⟩] 2 5 ⟨1, 5⟩ rfl rfl

theorem daysInMonth_bounds (y m : ℤ) : 28 ≤ daysInMonth y m ∧ daysInMonth y m ≤ 31 := by
  rw [daysInMonth]
  split
  · split <;> omega
  · split <;> omega

theorem clampDayForMonth_31 (y m : ℤ) : clampDayForMonth y m 31 = daysInMonth y m := by
  have hb := daysInMonth_bounds y m
  rw [clampDayForMonth]
  have h31 : ratFloor (31 : ℚ) = 31 := by decide
  rw [h31]
  omega

theorem resolveIncomeDate_day31 (start : SimpleDate) (k : ℤ) :
    (resolveIncomeDate start 31 k).day
      = daysInMonth (resolveIncomeDate start 31 k).year (resolveIncomeDate start 31 k).month := by
  rw [resolveIncomeDate, firstOccurrenceOf]
  dsimp only
  split
  · split
    · exact clampDayForMonth_31 _ _
    · exact clampDayForMonth_31 _ _
  · exact clampDayForMonth_31 _ _

theorem resolveIncomeDate_consecutive (start : SimpleDate) (k : ℤ) (hk : 1 ≤ k) :
    monthsSinceEpoch (resolveIncomeDate start 31 (k + 1))
      = monthsSinceEpoch (resolveIncomeDate start 31 k) + 1 := by
  rw [resolveIncomeDate, resolveIncomeDate]
  rw [if_neg (by omega : ¬(k + 1 ≤ 1))]
  by_cases h1 : k ≤ 1
  · have hk1 : k = 1 := le_antisymm h1 hk
    subst hk1
    rw [if_pos le_rfl]
    rw [monthsSinceEpoch, monthsSinceEpoch]
    dsimp only
    omega
  · rw [if_neg h1]
    rw [monthsSinceEpoch, monthsSinceEpoch]
    dsimp only
    omega

/-- C9: with incomeDay = 31 the payday occurrence is clamped to the last
day of its own month at every occurrence (day 30 in the 30-day month
April 2026, day 31 again in May 2026), the clamp being recomputed for each
target month, and consecutive occurrences land in consecutive months —
no month is ever skipped. -/
theorem c9_payday_clamp :
    (∀ (start : SimpleDate) (k : ℤ),
        (resolveIncomeDate start 31 k).day
          = daysInMonth (resolveIncomeDate start 31 k).year
              (resolveIncomeDate start 31 k).month) ∧
    (∀ (start : SimpleDate) (k : ℤ), 1 ≤ k →
        monthsSinceEpoch (resolveIncomeDate start 31 (k + 1))
          = monthsSinceEpoch (resolveIncomeDate start 31 k) + 1) ∧
    resolveIncomeDate ⟨2026, 3, 1⟩ 31 1 = ⟨2026, 3, 30⟩ ∧
    resolveIncomeDate ⟨2026, 3, 1⟩ 31 2 = ⟨2026, 4, 31⟩ ∧
    daysInMonth 2026 3 = 30 ∧
    daysInMonth 2026 4 = 31 :=
  ⟨resolveIncomeDate_day31, resolveIncomeDate_consecutive,
    by decide, by decide, by decide, by decide⟩

/-- C9 witness: consecutive occurrences from April 1, 2026. -/
theorem c9_payday_clamp_witness :
    monthsSinceEpoch (resolveIncomeDate ⟨2026, 3, 1⟩ 31 (1 + 1))
      = monthsSinceEpoch (resolveIncomeDate ⟨2026, 3, 1⟩ 31 1) + 1 :=
  c9_payday_clamp.2.1 ⟨2026, 3, 1⟩ 1 le_rfl

theorem sortSnapshots_sorted (l : List NetWorthSnapshot) :
    List.Sorted snapshotLe (sortSnapshots l) :=
  List.sorted_insertionSort snapshotLe l

/-- C10: every reachable state of the snapshot store has its snapshots in
ascending capturedAt order — capture, wholesale replacement and restore
re-sort the list, and removal preserves the order. -/
theorem c10_snapshots_sorted (l : List NetWorthSnapshot) (h : SnapshotsReachable l) :
    List.Sorted snapshotLe l := by
  induction h with
  | init => exact List.sorted_nil
  | capture l snapshot _ _ => exact sortSnapshots_sorted _
  | set input => exact sortSnapshots_sorted _
  | remove l id _ ih => exact List.Sorted.filter _ ih
  | restore l snapshot _ _ => exact sortSnapshots_sorted _

/-- C10 witness: the invariant on the concrete state reached by capturing
one snapshot from the empty store. -/
theorem c10_snapshots_sorted_witness :
    List.Sorted snapshotLe (captureSnapshot [] ⟨"s1", 5, 100⟩) :=
  c10_snapshots_sorted (captureSnapshot [] ⟨"s1", 5, 100⟩)
    (SnapshotsReachable.capture [] ⟨"s1", 5, 100⟩ SnapshotsReachable.init)
